import Mathlib

/-!
Verification of the slideshow traversal core (`slideshow.py`).

The embedding models the Python class `ImagePaths` (the sequence cursor), the
directory-watch handler `NewImageHandler`, and the catalog builder
`get_image_paths`, as pure Lean functions over explicit state.

Python-specific behaviour that the claims depend on is modelled faithfully:
list subscripting accepts negative indices (counting from the end) and raises
`IndexError` out of range; `__next__` raises `StopIteration` when the loop
budget is exhausted; `str.endswith` with a tuple argument is a plain suffix
test against any tuple element (no dot is required).
-/

/-- Python errors raised by the modelled code. -/
inductive PyErr where
  | stopIteration
  | indexError
  deriving DecidableEq, Repr

/-- Python list subscripting `l[i]`: a negative index counts from the end;
out-of-range access yields `none` (an `IndexError`). -/
def pyGet (l : List String) (i : Int) : Option String :=
  if 0 ≤ i then
    if i < (l.length : Int) then l[i.toNat]? else none
  else
    if 0 ≤ i + (l.length : Int) then l[(i + (l.length : Int)).toNat]? else none

/-- The tuple `IMG_EXTS` of `slideshow.py`. -/
def IMG_EXTS : List String := ["jpg", "jpeg", "png", "gif"]

/-- State of the Python class `ImagePaths`: fields `_pos`, `_paths`,
`_loops_remaining`, `_rand_order`, `_show_new_next`. -/
structure ImagePaths where
  pos : Int
  paths : List String
  loopsRemaining : Int
  randOrder : Bool
  showNewNext : Bool
  deriving DecidableEq, Repr

/-- Embeds `ImagePaths.__init__`. When `rand_order` is true the Python
constructor stores `random.sample(paths, len(paths))`, a permutation of the
argument; the embedding takes the stored (already permuted) list as its
argument, so `paths` here is the cursor's initial `order`. -/
def ImagePaths.init (paths : List String) (loopsRemaining : Int)
    (randOrder showNewNext : Bool) : ImagePaths :=
  { pos := 0, paths := paths, loopsRemaining := loopsRemaining,
    randOrder := randOrder, showNewNext := showNewNext }

/-- Python `list.insert` at a (possibly out-of-range) natural index: an index
past the end appends. -/
def listInsertIdx : List String → Nat → String → List String
  | l, 0, x => x :: l
  | [], _ + 1, x => [x]
  | y :: l, n + 1, x => y :: listInsertIdx l n x

/-- Python `list.insert(i, x)` with `int` index semantics: negative indices
count from the end and clamp at `0`; indices past the end append. -/
def pyListInsert (l : List String) (i : Int) (x : String) : List String :=
  let j : Int := if i < 0 then max 0 (i + (l.length : Int)) else i
  listInsertIdx l j.toNat x

/-- Embeds `ImagePaths.insert`. In random order the Python code draws
`insert_index = random.randint(self._pos + 1, len(self._paths))`; the draw is
passed in as `randIdx` (the sampled value lies in `[pos + 1, len paths]`).
In sequential order the path is appended and `insert_index` is the index of
the appended element. The Python `self._paths is not None` guard is always
true here: the constructor always stores a list. If `_show_new_next` is set
and the new list has more than one element, the code runs
`self._pos -= insert_index - 1`. -/
def ImagePaths.insert (s : ImagePaths) (newImgPath : String) (randIdx : Int) :
    ImagePaths :=
  let res : List String × Int :=
    if s.randOrder then
      (pyListInsert s.paths randIdx newImgPath, randIdx)
    else
      (s.paths ++ [newImgPath], (s.paths.length : Int))
  let paths := res.1
  let insertIndex := res.2
  if s.showNewNext ∧ 1 < paths.length then
    { s with paths := paths, pos := s.pos - (insertIndex - 1) }
  else
    { s with paths := paths }

/-- Embeds `ImagePaths.delete`: the Python body is `pass`, so the method
mutates nothing. -/
def ImagePaths.delete (s : ImagePaths) (deletedImgPath : String) : ImagePaths :=
  s

/-- Embeds `ImagePaths.__next__`: increment `_pos`; if it reaches
`len(_paths)` then either raise `StopIteration` (when `_loops_remaining == 0`)
or wrap to `0`, decrementing `_loops_remaining` only when it is positive;
finally return `self._paths[self._pos]`. The returned state is the mutated
object (Python mutates `self` even on the raising path). -/
def ImagePaths.next (s : ImagePaths) : Except PyErr String × ImagePaths :=
  let pos := s.pos + 1
  if pos = (s.paths.length : Int) then
    if s.loopsRemaining = 0 then
      (Except.error PyErr.stopIteration, { s with pos := pos })
    else
      let lr := if 0 < s.loopsRemaining then s.loopsRemaining - 1
                else s.loopsRemaining
      let s' : ImagePaths := { s with pos := 0, loopsRemaining := lr }
      (match pyGet s'.paths s'.pos with
       | some p => Except.ok p
       | none => Except.error PyErr.indexError,
       s')
  else
    let s' : ImagePaths := { s with pos := pos }
    (match pyGet s'.paths s'.pos with
     | some p => Except.ok p
     | none => Except.error PyErr.indexError,
     s')

/-- Embeds `ImagePaths.prev`: decrement `_pos`; if it drops below `0`, wrap
to `len(_paths) - 1`; return `self._paths[self._pos]`. -/
def ImagePaths.prev (s : ImagePaths) : Except PyErr String × ImagePaths :=
  let pos0 := s.pos - 1
  let pos := if pos0 < 0 then (s.paths.length : Int) - 1 else pos0
  let s' : ImagePaths := { s with pos := pos }
  (match pyGet s'.paths s'.pos with
   | some p => Except.ok p
   | none => Except.error PyErr.indexError,
   s')

instance {ε α : Type} [DecidableEq ε] [DecidableEq α] :
    DecidableEq (Except ε α) := fun a b =>
  match a, b with
  | Except.ok x, Except.ok y =>
    if h : x = y then isTrue (by rw [h]) else isFalse (by simp [h])
  | Except.ok _, Except.error _ => isFalse (by simp)
  | Except.error _, Except.ok _ => isFalse (by simp)
  | Except.error x, Except.error y =>
    if h : x = y then isTrue (by rw [h]) else isFalse (by simp [h])

/-- Runs `__next__` `n` times from a state, collecting the returned paths;
stops at the first raised error. -/
def runNexts : Nat → ImagePaths → Except PyErr (List String × ImagePaths)
  | 0, s => Except.ok ([], s)
  | k + 1, s =>
    match ImagePaths.next s with
    | (Except.ok p, s') =>
      match runNexts k s' with
      | Except.ok (ps, s'') => Except.ok (p :: ps, s'')
      | Except.error e => Except.error e
    | (Except.error e, _) => Except.error e

/-- Embeds `NewImageHandler.update_image_paths`: despite its docstring
("append new image to current_image_paths"), the Python body is
`return current_image_paths`. -/
def NewImageHandler.update_image_paths (currentImagePaths : List String)
    (newImagePath : String) : List String :=
  currentImagePaths

/-- Embeds `NewImageHandler.on_created`: the Python body only calls
`logging.debug`, so the cursor state visible to the handler is untouched. -/
def NewImageHandler.on_created (s : ImagePaths) (eventPath : String) :
    ImagePaths :=
  s

/-- One directory visited by `os.walk`: its root path and the names of the
files it directly contains. The scan in `get_image_paths` only reads `root`
and `files` from each triple. Roots are taken to be absolute, normalized
paths. -/
structure WalkEntry where
  root : String
  files : List String
  deriving DecidableEq, Repr

/-- Python string `<=`, used by `sorted` (lexicographic by code point). -/
def strLe (a b : String) : Bool :=
  !(compare a b == Ordering.gt)

/-- Insertion step of a stable insertion sort under `strLe`. -/
def insertSorted (x : String) : List String → List String
  | [] => [x]
  | y :: ys => if strLe x y then x :: y :: ys else y :: insertSorted x ys

/-- Python `sorted(files)`: ascending lexicographic order. -/
def sortFiles (files : List String) : List String :=
  files.foldr insertSorted []

/-- Python `file.endswith(IMG_EXTS)` with a tuple argument: true iff the file
name ends with any element of the tuple (a plain suffix test; no dot is
required before the matched extension). -/
def endsWithAnyImgExt (file : String) : Bool :=
  IMG_EXTS.any (fun ext => List.isSuffixOf ext.data file.data)

/-- Models `os.path.abspath(os.path.join(root, file))` for an absolute,
normalized `root` and a bare file name: the joined path `root/file`. -/
def joinPath (root file : String) : String :=
  root ++ "/" ++ file

/-- Embeds `get_image_paths`: walk the directory tree top-down; in each
directory, iterate the files in sorted order and append the joined path of
every file whose name passes `endswith(IMG_EXTS)`. The `os.walk` output is
the function's input. Returns the accumulated list (an empty walk or a walk
with no matching file yields `[]`; the Python code raises nothing). -/
def get_image_paths (walk : List WalkEntry) : List String :=
  walk.foldl
    (fun paths e =>
      (sortFiles e.files).foldl
        (fun paths file =>
          if endsWithAnyImgExt file then paths ++ [joinPath e.root file]
          else paths)
        paths)
    []

/-- The characters after the last `.` of a character list, or `none` when no
dot occurs. -/
def afterLastDot : List Char → Option (List Char)
  | [] => none
  | c :: cs =>
    match afterLastDot cs with
    | some ext => some ext
    | none => if c = '.' then some cs else none

/-- The inclusion test as the claim words it: the suffix after the final dot
of the file name, matched case-sensitively, is in the allowed set. A name
with no dot has no extension. Stated from the spec, to be compared with
`endsWithAnyImgExt`, the test the source performs. -/
def specHasAllowedExt (file : String) : Bool :=
  match afterLastDot file.data with
  | some ext => IMG_EXTS.any (fun e => e.data == ext)
  | none => false

/-! ## Helper lemmas about the cursor step functions -/

theorem pyGet_some (l : List String) (i : Int) (h0 : 0 ≤ i)
    (h1 : i < (l.length : Int)) :
    ∃ p, pyGet l i = some p ∧ p ∈ l := by
  have hn : i.toNat < l.length := by omega
  refine ⟨l.get ⟨i.toNat, hn⟩, ?_, List.get_mem l i.toNat hn⟩
  simp [pyGet, h0, h1, List.getElem?_eq_getElem hn]

theorem next_no_wrap (paths : List String) (lr : Int) (r b : Bool)
    (pos : Int) (h0 : 0 ≤ pos) (hlt : pos + 1 < (paths.length : Int)) :
    ∃ p, pyGet paths (pos + 1) = some p ∧ p ∈ paths ∧
      ImagePaths.next ⟨pos, paths, lr, r, b⟩ =
        (Except.ok p, ⟨pos + 1, paths, lr, r, b⟩) := by
  obtain ⟨p, hp, hmem⟩ := pyGet_some paths (pos + 1) (by omega) hlt
  refine ⟨p, hp, hmem, ?_⟩
  simp only [ImagePaths.next]
  rw [if_neg (by omega : ¬ (pos + 1 = (paths.length : Int)))]
  simp [hp]

theorem next_wrap (paths : List String) (lr : Int) (r b : Bool)
    (pos : Int) (hw : pos + 1 = (paths.length : Int)) (hlr : lr ≠ 0)
    (hlen : 0 < paths.length) :
    ∃ p, pyGet paths 0 = some p ∧ p ∈ paths ∧
      ImagePaths.next ⟨pos, paths, lr, r, b⟩ =
        (Except.ok p, ⟨0, paths, if 0 < lr then lr - 1 else lr, r, b⟩) := by
  obtain ⟨p, hp, hmem⟩ := pyGet_some paths 0 le_rfl (by exact_mod_cast hlen)
  refine ⟨p, hp, hmem, ?_⟩
  simp only [ImagePaths.next]
  rw [if_pos hw, if_neg hlr]
  simp [hp]

theorem next_exhaust (paths : List String) (r b : Bool) (pos : Int)
    (hw : pos + 1 = (paths.length : Int)) :
    ImagePaths.next ⟨pos, paths, 0, r, b⟩ =
      (Except.error PyErr.stopIteration, ⟨pos + 1, paths, 0, r, b⟩) := by
  simp only [ImagePaths.next]
  rw [if_pos hw]
  simp

theorem prev_no_wrap (paths : List String) (lr : Int) (r b : Bool)
    (pos : Int) (h1 : 1 ≤ pos) (hle : pos ≤ (paths.length : Int)) :
    ∃ q, pyGet paths (pos - 1) = some q ∧
      ImagePaths.prev ⟨pos, paths, lr, r, b⟩ =
        (Except.ok q, ⟨pos - 1, paths, lr, r, b⟩) := by
  obtain ⟨q, hq, _⟩ := pyGet_some paths (pos - 1) (by omega) (by omega)
  refine ⟨q, hq, ?_⟩
  simp only [ImagePaths.prev]
  rw [if_neg (by omega : ¬ (pos - 1 < (0 : Int)))]
  simp [hq]

theorem prev_wrap (paths : List String) (lr : Int) (r b : Bool)
    (hlen : 0 < paths.length) :
    ∃ q, pyGet paths ((paths.length : Int) - 1) = some q ∧
      ImagePaths.prev ⟨0, paths, lr, r, b⟩ =
        (Except.ok q, ⟨(paths.length : Int) - 1, paths, lr, r, b⟩) := by
  obtain ⟨q, hq, _⟩ := pyGet_some paths ((paths.length : Int) - 1)
    (by omega) (by omega)
  refine ⟨q, hq, ?_⟩
  simp only [ImagePaths.prev]
  rw [if_pos (by omega : (0 : Int) - 1 < 0)]
  simp [hq]

theorem runNexts_zero_budget (paths : List String) (r b : Bool) :
    ∀ (j i : Nat), i + j + 1 = paths.length →
      (∃ ps s', runNexts j ⟨(i : Int), paths, 0, r, b⟩ = Except.ok (ps, s')
         ∧ ∀ p ∈ ps, p ∈ paths)
      ∧ runNexts (j + 1) ⟨(i : Int), paths, 0, r, b⟩ =
          Except.error PyErr.stopIteration := by
  intro j
  induction j with
  | zero =>
    intro i hn
    have hw : (i : Int) + 1 = (paths.length : Int) := by omega
    refine ⟨⟨[], _, rfl, by simp⟩, ?_⟩
    show runNexts 1 _ = _
    simp only [runNexts]
    rw [next_exhaust paths r b (i : Int) hw]
  | succ j ih =>
    intro i hn
    have hlt : (i : Int) + 1 < (paths.length : Int) := by omega
    obtain ⟨p, _, hmem, hstep⟩ := next_no_wrap paths 0 r b (i : Int)
      (by omega) hlt
    have hcast : ((i : Int) + 1) = ((i + 1 : Nat) : Int) := by omega
    rw [hcast] at hstep
    obtain ⟨⟨ps, s', hrun, hps⟩, herr⟩ := ih (i + 1) (by omega)
    constructor
    · refine ⟨p :: ps, s', ?_, ?_⟩
      · show runNexts (j + 1) _ = _
        rw [runNexts, hstep]
        dsimp only
        rw [hrun]
      · intro q hq
        rcases List.mem_cons.mp hq with h | h
        · exact h ▸ hmem
        · exact hps q h
    · show runNexts (j + 2) _ = _
      rw [runNexts, hstep]
      dsimp only
      rw [herr]

/-! ## Helper lemmas about the catalog scan -/

theorem mem_insertSorted (x a : String) (l : List String) :
    a ∈ insertSorted x l ↔ a = x ∨ a ∈ l := by
  induction l with
  | nil => simp [insertSorted]
  | cons y ys ih =>
    by_cases h : strLe x y = true
    · simp [insertSorted, h]
    · simp only [insertSorted, h, if_false, Bool.not_eq_true, if_neg,
        List.mem_cons, ih]
      tauto

theorem mem_sortFiles (a : String) (l : List String) :
    a ∈ sortFiles l ↔ a ∈ l := by
  induction l with
  | nil => simp [sortFiles]
  | cons y ys ih =>
    show a ∈ insertSorted y (sortFiles ys) ↔ _
    rw [mem_insertSorted, ih]
    simp

theorem scanDir_foldl_eq (root : String) (files acc : List String) :
    files.foldl
      (fun paths file =>
        if endsWithAnyImgExt file then paths ++ [joinPath root file]
        else paths)
      acc
    = acc ++ files.filterMap
        (fun f => if endsWithAnyImgExt f then some (joinPath root f)
                  else none) := by
  induction files generalizing acc with
  | nil => simp
  | cons f fs ih =>
    by_cases h : endsWithAnyImgExt f = true
    · simp [List.foldl_cons, h, ih, List.filterMap_cons]
    · simp only [Bool.not_eq_true] at h
      simp [List.foldl_cons, h, ih, List.filterMap_cons]

theorem get_image_paths_eq (walk : List WalkEntry) :
    get_image_paths walk =
      (walk.map (fun e =>
        (sortFiles e.files).filterMap
          (fun f => if endsWithAnyImgExt f then some (joinPath e.root f)
                    else none))).flatten := by
  have main : ∀ (w : List WalkEntry) (acc : List String),
      w.foldl
        (fun paths e =>
          (sortFiles e.files).foldl
            (fun paths file =>
              if endsWithAnyImgExt file then paths ++ [joinPath e.root file]
              else paths)
            paths)
        acc
      = acc ++ (w.map (fun e =>
          (sortFiles e.files).filterMap
            (fun f => if endsWithAnyImgExt f then some (joinPath e.root f)
                      else none))).flatten := by
    intro w
    induction w with
    | nil => simp
    | cons e es ih =>
      intro acc
      rw [List.foldl_cons, scanDir_foldl_eq, ih]
      simp [List.append_assoc]
  simpa [get_image_paths] using main walk []

theorem pyGet_zero (l : List String) (h : 0 < l.length) :
    pyGet l 0 = l.head? := by
  cases l with
  | nil => simp at h
  | cons a t => simp [pyGet]

/-! ## Claims -/

/-- C1: the claim says every cursor operation, insert included, leaves
`position` in `[0, len(order))`. The code violates it: on the sequential
cursor over `[a, b, c]` at position `0`, inserting `d` runs
`self._pos -= insert_index - 1` with `insert_index = 3` and leaves the
position at `-2`, outside `[0, 4)`. -/
theorem C1_insert_drives_position_negative :
    (ImagePaths.insert (ImagePaths.init ["a", "b", "c"] (-1) false true)
        "d" 0).pos = -2
    ∧ (ImagePaths.insert (ImagePaths.init ["a", "b", "c"] (-1) false true)
        "d" 0).pos < 0 := by decide

/-- C2: the claim says that with `show_new_next` the displayed element is
unchanged by `insert(p)` and the next advance returns `p`. The code violates
both parts: on the sequential cursor over `[a, b, c, d, e]` at position `0`,
the displayed element is `a` before inserting `f`, the insertion moves the
position to `-4` so the displayed element (Python indexing) becomes `c`, and
the next `__next__` call returns `d`, not the inserted `f`. -/
theorem C2_show_next_insert_violation :
    pyGet (ImagePaths.init ["a", "b", "c", "d", "e"] (-1) false true).paths
        (ImagePaths.init ["a", "b", "c", "d", "e"] (-1) false true).pos
      = some "a"
    ∧ (ImagePaths.insert
        (ImagePaths.init ["a", "b", "c", "d", "e"] (-1) false true)
        "f" 0).paths = ["a", "b", "c", "d", "e", "f"]
    ∧ (ImagePaths.insert
        (ImagePaths.init ["a", "b", "c", "d", "e"] (-1) false true)
        "f" 0).pos = -4
    ∧ pyGet (ImagePaths.insert
          (ImagePaths.init ["a", "b", "c", "d", "e"] (-1) false true)
          "f" 0).paths
        (ImagePaths.insert
          (ImagePaths.init ["a", "b", "c", "d", "e"] (-1) false true)
          "f" 0).pos = some "c"
    ∧ (ImagePaths.next (ImagePaths.insert
          (ImagePaths.init ["a", "b", "c", "d", "e"] (-1) false true)
          "f" 0)).1 = Except.ok "d" := by decide

/-- C3: on the sequential cursor over `[a, b, c]` with one loop remaining,
the advance calls return `b, c` (loop budget still `1`), then `a` with the
budget decremented to `0` exactly at the forward wrap, then `b, c`, and the
sixth call raises `StopIteration`. -/
theorem C3_three_image_one_loop_trace :
    runNexts 2 (ImagePaths.init ["a", "b", "c"] 1 false true) =
      Except.ok (["b", "c"], ⟨2, ["a", "b", "c"], 1, false, true⟩)
    ∧ runNexts 3 (ImagePaths.init ["a", "b", "c"] 1 false true) =
      Except.ok (["b", "c", "a"], ⟨0, ["a", "b", "c"], 0, false, true⟩)
    ∧ runNexts 5 (ImagePaths.init ["a", "b", "c"] 1 false true) =
      Except.ok (["b", "c", "a", "b", "c"],
        ⟨2, ["a", "b", "c"], 0, false, true⟩)
    ∧ runNexts 6 (ImagePaths.init ["a", "b", "c"] 1 false true) =
      Except.error PyErr.stopIteration := by decide

/-- C4: on a sequential cursor with zero loop budget starting at position
`0` over `n ≥ 1` paths, the first `n - 1` advance calls succeed, each
returning an element of the order, and the `n`-th call raises
`StopIteration`. -/
theorem C4_zero_loop_budget_exhausts (paths : List String) (b : Bool)
    (h : 1 ≤ paths.length) :
    (∃ ps s', runNexts (paths.length - 1) (ImagePaths.init paths 0 false b) =
        Except.ok (ps, s') ∧ ∀ p ∈ ps, p ∈ paths)
    ∧ runNexts paths.length (ImagePaths.init paths 0 false b) =
        Except.error PyErr.stopIteration := by
  have main := runNexts_zero_budget paths false b (paths.length - 1) 0
    (by omega)
  rw [show paths.length - 1 + 1 = paths.length from by omega] at main
  simp only [Nat.cast_zero] at main
  simpa [ImagePaths.init] using main

/-- Witness for C4 at the concrete two-image catalog. -/
theorem C4_zero_loop_budget_exhausts_witness :
    (∃ ps s', runNexts ((["a", "b"] : List String).length - 1)
        (ImagePaths.init ["a", "b"] 0 false true) =
        Except.ok (ps, s') ∧ ∀ p ∈ ps, p ∈ (["a", "b"] : List String))
    ∧ runNexts (["a", "b"] : List String).length
        (ImagePaths.init ["a", "b"] 0 false true) =
        Except.error PyErr.stopIteration :=
  C4_zero_loop_budget_exhausts ["a", "b"] true (by decide)

/-- C5: the claim says `delete(p)` removes `p` from the order when present.
The code violates it: the body of `ImagePaths.delete` is `pass`, so deleting
a present path leaves the state unchanged and the path stays in the order. -/
theorem C5_delete_never_removes :
    ImagePaths.delete (ImagePaths.init ["a", "b"] (-1) false true) "a"
      = ImagePaths.init ["a", "b"] (-1) false true
    ∧ "a" ∈ (ImagePaths.delete (ImagePaths.init ["a", "b"] (-1) false true)
        "a").paths := by decide

/-- C6 counterexample: the claim says a scan that finds no allowed file
fails with `EmptyCatalog` rather than returning an empty sequence; the code
has no such error and returns the empty list on this walk. -/
theorem C6_counterexample_scan_returns_empty :
    get_image_paths [⟨"/r", ["notes.txt"]⟩] = ([] : List String) := by decide

/-- C6 amended: when no file of the walk passes the extension test,
`get_image_paths` returns the empty list (no error is raised; the function
is total). -/
theorem C6_amended_scan_empty (walk : List WalkEntry)
    (h : ∀ e ∈ walk, ∀ f ∈ e.files, endsWithAnyImgExt f = false) :
    get_image_paths walk = [] := by
  rw [get_image_paths_eq, List.flatten_eq_nil_iff]
  intro l hl
  obtain ⟨e, he, rfl⟩ := List.mem_map.mp hl
  rw [List.filterMap_eq_nil_iff]
  intro f hf
  rw [mem_sortFiles] at hf
  simp [h e he f hf]

/-- Witness for the amended C6 at a concrete walk with no matching file. -/
theorem C6_amended_scan_empty_witness :
    get_image_paths [⟨"/d", ["readme.md"]⟩] = [] :=
  C6_amended_scan_empty [⟨"/d", ["readme.md"]⟩] (by decide)

/-- C7 counterexample: the claim says a file is included iff the suffix
after its final dot is an allowed extension; the file name `xjpg` has no
dot, yet the scan includes it, because the code tests
`file.endswith(IMG_EXTS)`, a plain suffix match. -/
theorem C7_counterexample_dotless_name :
    get_image_paths [⟨"/r", ["xjpg"]⟩] = ["/r/xjpg"]
    ∧ specHasAllowedExt "xjpg" = false := by decide

/-- C7 amended: a path is in the scan result iff it is the joined path of a
file of the walk whose name ends with one of `jpg`, `jpeg`, `png`, `gif`
(case-sensitive plain suffix match; no dot is required). -/
theorem C7_amended_mem_iff (walk : List WalkEntry) (p : String) :
    p ∈ get_image_paths walk ↔
      ∃ e ∈ walk, ∃ f ∈ e.files,
        endsWithAnyImgExt f = true ∧ p = joinPath e.root f := by
  rw [get_image_paths_eq, List.mem_flatten]
  constructor
  · rintro ⟨l, hl, hp⟩
    obtain ⟨e, he, rfl⟩ := List.mem_map.mp hl
    obtain ⟨f, hf, hsome⟩ := List.mem_filterMap.mp hp
    rw [mem_sortFiles] at hf
    by_cases hc : endsWithAnyImgExt f = true
    · rw [if_pos hc] at hsome
      exact ⟨e, he, f, hf, hc, (Option.some_inj.mp hsome).symm⟩
    · rw [if_neg hc] at hsome
      cases hsome
  · rintro ⟨e, he, f, hf, hc, rfl⟩
    refine ⟨_, List.mem_map_of_mem _ he, ?_⟩
    exact List.mem_filterMap.mpr
      ⟨f, (mem_sortFiles f e.files).mpr hf, by rw [if_pos hc]⟩

/-- Witness for the amended C7 at a concrete walk. -/
theorem C7_amended_mem_iff_witness :
    "/pics/cat.jpg" ∈ get_image_paths [⟨"/pics", ["cat.jpg"]⟩] :=
  (C7_amended_mem_iff [⟨"/pics", ["cat.jpg"]⟩] "/pics/cat.jpg").mpr
    ⟨⟨"/pics", ["cat.jpg"]⟩, by decide, "cat.jpg", by decide, by decide,
      by decide⟩

/-- C8: the claim says handling a watcher created event inserts the new path
into the cursor's order. The code violates it: `on_created` only logs, and
`update_image_paths` returns its input unchanged despite its docstring, so
the new path never becomes reachable. -/
theorem C8_watch_handler_ignores_new_image :
    NewImageHandler.update_image_paths ["/r/a.jpg"] "/r/new.jpg" = ["/r/a.jpg"]
    ∧ "/r/new.jpg" ∉ NewImageHandler.update_image_paths ["/r/a.jpg"]
        "/r/new.jpg"
    ∧ NewImageHandler.on_created
        (ImagePaths.init ["/r/a.jpg"] (-1) false true) "/r/new.jpg"
      = ImagePaths.init ["/r/a.jpg"] (-1) false true
    ∧ "/r/new.jpg" ∉ (NewImageHandler.on_created
        (ImagePaths.init ["/r/a.jpg"] (-1) false true) "/r/new.jpg").paths :=
  by decide

/-- C9: from any state with a valid position where the advance does not
raise `StopIteration`, advancing and then retreating restores the position
and hence the displayed element, including across a forward wrap followed by
a backward wrap. -/
theorem C9_advance_then_retreat (s : ImagePaths)
    (h0 : 0 ≤ s.pos) (h1 : s.pos < (s.paths.length : Int))
    (hxe : ¬ (s.pos + 1 = (s.paths.length : Int) ∧ s.loopsRemaining = 0)) :
    ∃ p s₁ q s₂,
      ImagePaths.next s = (Except.ok p, s₁) ∧
      ImagePaths.prev s₁ = (Except.ok q, s₂) ∧
      s₂.paths = s.paths ∧ s₂.pos = s.pos ∧
      pyGet s₂.paths s₂.pos = pyGet s.paths s.pos := by
  obtain ⟨pos, paths, lr, r, b⟩ := s
  simp only at h0 h1 hxe ⊢
  by_cases hw : pos + 1 = (paths.length : Int)
  · have hlr : lr ≠ 0 := fun hz => hxe ⟨hw, hz⟩
    have hlen : 0 < paths.length := by omega
    obtain ⟨p, hp, hpm, hnext⟩ := next_wrap paths lr r b pos hw hlr hlen
    obtain ⟨q, hq, hprev⟩ :=
      prev_wrap paths (if 0 < lr then lr - 1 else lr) r b hlen
    refine ⟨p, _, q, _, hnext, hprev, rfl, ?_, ?_⟩
    · show (paths.length : Int) - 1 = pos
      omega
    · show pyGet paths ((paths.length : Int) - 1) = pyGet paths pos
      rw [show (paths.length : Int) - 1 = pos from by omega]
  · have hlt : pos + 1 < (paths.length : Int) := by omega
    obtain ⟨p, hp, hpm, hnext⟩ := next_no_wrap paths lr r b pos h0 hlt
    obtain ⟨q, hq, hprev⟩ :=
      prev_no_wrap paths lr r b (pos + 1) (by omega) (by omega)
    refine ⟨p, _, q, _, hnext, hprev, rfl, ?_, ?_⟩
    · show pos + 1 - 1 = pos
      omega
    · show pyGet paths (pos + 1 - 1) = pyGet paths pos
      rw [show pos + 1 - 1 = pos from by omega]

/-- Witness for C9 at a concrete state that wraps forward and back. -/
theorem C9_advance_then_retreat_witness :
    ∃ p s₁ q s₂,
      ImagePaths.next (ImagePaths.init ["a", "b"] 0 false true) =
        (Except.ok p, s₁) ∧
      ImagePaths.prev s₁ = (Except.ok q, s₂) ∧
      s₂.paths = (ImagePaths.init ["a", "b"] 0 false true).paths ∧
      s₂.pos = (ImagePaths.init ["a", "b"] 0 false true).pos ∧
      pyGet s₂.paths s₂.pos =
        pyGet (ImagePaths.init ["a", "b"] 0 false true).paths
          (ImagePaths.init ["a", "b"] 0 false true).pos :=
  C9_advance_then_retreat (ImagePaths.init ["a", "b"] 0 false true)
    (by decide) (by decide) (by decide)

/-- C10: with any negative loop budget (not only `-1`), advancing at the end
of the order wraps the position to `0`, returns the first element, and
leaves the loop budget unchanged. -/
theorem C10_negative_loops_loop_forever (paths : List String) (r b : Bool)
    (lr : Int) (hlr : lr < 0) (hlen : 0 < paths.length) :
    ∃ p, paths.head? = some p ∧
      ImagePaths.next ⟨(paths.length : Int) - 1, paths, lr, r, b⟩ =
        (Except.ok p, ⟨0, paths, lr, r, b⟩) := by
  obtain ⟨p, hp, hpm, hnext⟩ := next_wrap paths lr r b
    ((paths.length : Int) - 1) (by omega) (by omega) hlen
  rw [if_neg (show ¬ 0 < lr from by omega)] at hnext
  rw [pyGet_zero paths hlen] at hp
  exact ⟨p, hp, hnext⟩

/-- Witness for C10 at loop budget `-5`. -/
theorem C10_negative_loops_loop_forever_witness :
    ∃ p, (["a", "b"] : List String).head? = some p ∧
      ImagePaths.next ⟨((["a", "b"] : List String).length : Int) - 1,
          ["a", "b"], -5, false, true⟩ =
        (Except.ok p, ⟨0, ["a", "b"], -5, false, true⟩) :=
  C10_negative_loops_loop_forever ["a", "b"] false true (-5)
    (by decide) (by decide)
